import Mathlib

/-!
Verification development for the AlgoViz instrumentation-and-trace pipeline.

The development shallowly embeds the core of the repository:

* the trace runtime and pipeline driver (`executeCode`, its `tracer` object and
  the failure-absorbing `catch` block) from `src/unnamed/part_003`;
* the syntax instrumenter (`instrumentCode`: scope tracking, patch generation,
  stable descending patch application) from `src/unnamed/part_000`;
* the textual rewrite stages of the C++ transpiler that the claims exercise
  (`parseCoutArgs`, vector declarations, `cout` chains, `.size()` calls, the
  `log` math-function rewrite) from `src/unnamed/part_004`.

The evaluated user program is modelled, as seen by the driver, as the sequence
of tracer calls it performs (`TraceEvent`) together with an optional exception
escaping it; every tracer operation is translated directly from the source.
-/

/-- Kind tag of one console entry; source: `src/types.ts`, field
`type: 'log' | 'error' | 'warn'` of `ConsoleLog`. -/
inductive LogType where
  | log
  | error
  | warn
  deriving DecidableEq, Repr

/-- One console entry; source: `src/types.ts`, interface `ConsoleLog`. -/
structure ConsoleLog where
  type : LogType
  message : String
  deriving DecidableEq, Repr

mutual
/-- Runtime value of the evaluated program, as far as the tracer observes it:
numbers (integral in all scenarios that appear in the claims), strings,
booleans, `null`, `undefined`, `NaN`, functions, arrays. -/
inductive JsValue where
  | num (n : Int)
  | str (s : String)
  | bool (b : Bool)
  | null
  | undef
  | nan
  | fn
  | arr (elems : JsValueList)
  deriving DecidableEq, Repr
/-- List of runtime values (a mutual inductive so that all functions below are
structurally recursive and reduce in the kernel). -/
inductive JsValueList where
  | nil
  | cons (v : JsValue) (l : JsValueList)
  deriving DecidableEq, Repr
end

mutual
/-- Deep clone into JSON-safe form; source: `src/unnamed/part_003` lines 61-66,
the replacer of `JSON.parse(JSON.stringify(vars, ...))`: functions become the
marker string, `undefined` and `NaN` become explicit sentinel strings, all
other values survive the JSON round trip unchanged. -/
def sanitizeValue : JsValue → JsValue
  | .fn => .str "[Function]"
  | .undef => .str "undefined"
  | .nan => .str "NaN"
  | .num n => .num n
  | .str s => .str s
  | .bool b => .bool b
  | .null => .null
  | .arr l => .arr (sanitizeList l)
/-- Element-wise `sanitizeValue` (the JSON replacer is applied recursively). -/
def sanitizeList : JsValueList → JsValueList
  | .nil => .nil
  | .cons v l => .cons (sanitizeValue v) (sanitizeList l)
end

mutual
/-- JavaScript `String(x)` coercion for the values above (`String(3) = "3"`,
arrays join their elements with commas; the rendering of a function value is
abstracted to a fixed marker, no claim depends on it). -/
def jsString : JsValue → String
  | .num n => toString n
  | .str s => s
  | .bool b => cond b "true" "false"
  | .null => "null"
  | .undef => "undefined"
  | .nan => "NaN"
  | .fn => "[Function]"
  | .arr l => jsStringList l
/-- Comma-joined rendering used by `String` on arrays. -/
def jsStringList : JsValueList → String
  | .nil => ""
  | .cons v .nil => jsString v
  | .cons v (.cons w l) => jsString v ++ "," ++ jsStringList (.cons w l)
end

mutual
/-- JavaScript `JSON.stringify(x)` for the values above (`NaN`, `undefined`
and functions serialize to `null` inside arrays; strings are quoted). -/
def jsonStringify : JsValue → String
  | .num n => toString n
  | .str s => "\"" ++ s ++ "\""
  | .bool b => cond b "true" "false"
  | .null => "null"
  | .undef => "null"
  | .nan => "null"
  | .fn => "null"
  | .arr l => "[" ++ jsonStringifyList l ++ "]"
/-- Comma-joined element serialization used by `JSON.stringify` on arrays. -/
def jsonStringifyList : JsValueList → String
  | .nil => ""
  | .cons v .nil => jsonStringify v
  | .cons v (.cons w l) => jsonStringify v ++ "," ++ jsonStringifyList (.cons w l)
end

/-- Stringification of one argument of `tracer.log`; source:
`src/unnamed/part_003` lines 88-90: `typeof a === 'object'` (arrays and
`null`) goes through `JSON.stringify`, everything else through `String`. -/
def jsLogString : JsValue → String
  | .arr l => jsonStringify (.arr l)
  | .null => jsonStringify .null
  | v => jsString v

/-- Message built by `tracer.log`; source: `src/unnamed/part_003` lines 88-90:
the stringified arguments joined with single spaces. -/
def logMessage (args : List JsValue) : String :=
  String.intercalate " " (args.map jsLogString)

/-- One snapshot of the execution; source: `src/types.ts`, interface
`ExecutionStep` (`isError` and `errorMessage` are optional there and absent on
the steps pushed by `tracer.step`, hence the defaults). -/
structure ExecutionStep where
  line : Nat
  vars : List (String × JsValue)
  callStack : List String
  consoleOutput : List ConsoleLog
  isError : Bool := false
  errorMessage : Option String := none
  deriving DecidableEq, Repr

/-- State owned by one `executeCode` call; source: `src/unnamed/part_003`.
It combines the driver closure variables (`timeline`, `currentLogs`,
`lastLine`, `stepCount`) with the fields of the `tracer` object
(`stack`, `currentLine`, `_inputIndex`). -/
structure DriverState where
  timeline : List ExecutionStep
  currentLogs : List ConsoleLog
  lastLine : Nat
  stepCount : Nat
  stack : List String
  currentLine : Nat
  inputIndex : Nat
  deriving DecidableEq, Repr

/-- Initial driver state; source: `src/unnamed/part_003` lines 8-10 and 34-38:
empty timeline and log, `lastLine = 0`, `stepCount = 0`, stack seeded with
`'main'`, `currentLine = 1`, input cursor at 0. -/
def initState : DriverState :=
  { timeline := []
  , currentLogs := []
  , lastLine := 0
  , stepCount := 0
  , stack := ["main"]
  , currentLine := 1
  , inputIndex := 0 }

/-- Step budget; source: `src/unnamed/part_003` line 32, `const MAX_STEPS = 2000`. -/
def MAX_STEPS : Nat := 2000

/-- Pre-seeded deterministic input values; source: `src/unnamed/part_003`
line 37, `_inputValues`. -/
def inputValues : List Int := [5, 10, 3, 7, 1, 42, 100, 0, -1, 99]

/-- Source: `src/unnamed/part_003` lines 40-42, `tracer.enter`: push the name
onto the call stack (a JS array push appends at the end; index 0 is the
bottom). -/
def tracerEnter (name : String) (st : DriverState) : DriverState :=
  { st with stack := st.stack ++ [name] }

/-- Source: `src/unnamed/part_003` lines 44-48, `tracer.exit`: pop the call
stack unless only the seed frame remains (`if (tracer.stack.length > 1)`). -/
def tracerExit (st : DriverState) : DriverState :=
  if st.stack.length > 1 then { st with stack := st.stack.dropLast } else st

/-- Source: `src/unnamed/part_003` lines 50-53, `tracer.setLine`: record the
most recently reached line in both `tracer.currentLine` and the driver's
`lastLine`. -/
def tracerSetLine (line : Nat) (st : DriverState) : DriverState :=
  { st with currentLine := line, lastLine := line }

/-- Error message thrown by the step-budget guard; source:
`src/unnamed/part_003` line 56. -/
def budgetMessage : String :=
  "Execution limit exceeded (infinite loop detection)."

/-- Source: `src/unnamed/part_003` lines 55-80, `tracer.step`. The comparison
uses the post-increment idiom `stepCount++ > MAX_STEPS`: the old counter value
is compared, the counter is incremented in both branches, and on failure the
budget exception is thrown (returned as `some message`) before `lastLine` or
the timeline are touched. On success the sanitized variables, a copy of the
call stack and a copy of the logs so far are appended as one step. -/
def tracerStep (line : Nat) (vars : List (String × JsValue))
    (st : DriverState) : DriverState × Option String :=
  let old := st.stepCount
  let st1 := { st with stepCount := old + 1 }
  if old > MAX_STEPS then
    (st1, some budgetMessage)
  else
    let st2 := { st1 with currentLine := line, lastLine := line }
    let safeVars := vars.map (fun p => (p.1, sanitizeValue p.2))
    ({ st2 with timeline := st2.timeline ++
        [{ line := line
         , vars := safeVars
         , callStack := st2.stack
         , consoleOutput := st2.currentLogs }] }, none)

/-- Source: `src/unnamed/part_003` lines 82-85, `tracer.checkLoop`: pure
predicate, true once the step counter has exceeded the budget. -/
def tracerCheckLoop (st : DriverState) : Bool :=
  st.stepCount > MAX_STEPS

/-- Source: `src/unnamed/part_003` lines 87-92, `tracer.log`: stringify the
arguments, join with spaces, append one entry with kind `'log'`. -/
def tracerLog (args : List JsValue) (st : DriverState) : DriverState :=
  { st with currentLogs := st.currentLogs ++ [{ type := .log, message := logMessage args }] }

/-- Source: `src/unnamed/part_003` lines 94-100, `tracer.input`: return the
next value of the fixed cyclic sequence, advance the cursor, and log the value
(kind `'log'`). -/
def tracerInput (st : DriverState) : DriverState × Int :=
  let val := inputValues.getD (st.inputIndex % inputValues.length) 0
  ({ st with
      inputIndex := st.inputIndex + 1,
      currentLogs := st.currentLogs ++
        [{ type := .log, message := "[input] → " ++ toString val ++ " " }] }, val)

/-- Source: `src/unnamed/part_003` lines 103-109, the `console` object of the
wrapped code: `console.log` is `__tracer.log`. -/
def consoleLog (args : List JsValue) (st : DriverState) : DriverState :=
  tracerLog args st

/-- Source: `src/unnamed/part_003` lines 103-109: `console.error` is also
bound to `__tracer.log` (not to a distinct error-kind sink). -/
def consoleError (args : List JsValue) (st : DriverState) : DriverState :=
  tracerLog args st

/-- Source: `src/unnamed/part_003` lines 103-109: `console.warn` is also
bound to `__tracer.log`. -/
def consoleWarn (args : List JsValue) (st : DriverState) : DriverState :=
  tracerLog args st

/-- One tracer call performed by the evaluated instrumented program, in the
order the program performs them. `log` covers `console.log`, `console.error`
and `console.warn`, which the wrapped code all binds to `__tracer.log`. -/
inductive TraceEvent where
  | enter (name : String)
  | exit
  | setLine (line : Nat)
  | step (line : Nat) (vars : List (String × JsValue))
  | log (args : List JsValue)
  | input
  deriving DecidableEq, Repr

/-- Run the tracer calls of the evaluated program in order. A budget
exception thrown by `tracer.step` aborts the remaining program (the thrown
error propagates out of the evaluated code), and its message is returned. -/
def runEvents : List TraceEvent → DriverState → DriverState × Option String
  | [], st => (st, none)
  | ev :: rest, st =>
    match ev with
    | .enter name => runEvents rest (tracerEnter name st)
    | .exit => runEvents rest (tracerExit st)
    | .setLine l => runEvents rest (tracerSetLine l st)
    | .step line vars =>
      match tracerStep line vars st with
      | (st1, some msg) => (st1, some msg)
      | (st1, none) => runEvents rest st1
    | .log args => runEvents rest (tracerLog args st)
    | .input => runEvents rest (tracerInput st).1

/-- Terminal error step built by the driver's `catch` block; source:
`src/unnamed/part_003` lines 122-139: line is the driver's `lastLine`,
variables and call stack are copied from the last successful step when one
exists (otherwise the empty mapping and the literal `['main']`), the console
log gets one extra `'error'` entry, `isError` is set and `errorMessage` is the
caught message. -/
def errorStep (st : DriverState) (msg : String) : ExecutionStep :=
  { line := st.lastLine
  , vars := ((st.timeline.getLast?).map (fun s => s.vars)).getD []
  , callStack := ((st.timeline.getLast?).map (fun s => s.callStack)).getD ["main"]
  , consoleOutput := st.currentLogs ++
      [{ type := .error, message := "Runtime Error: " ++ msg ++ " " }]
  , isError := true
  , errorMessage := some msg }

/-- The pipeline driver; source: `src/unnamed/part_003` lines 6-141,
`executeCode`. The evaluated program is given by the tracer calls it performs
(`events`) and by `progError`, the message of an exception escaping it after
those calls (`none` when it terminates normally); a transpilation or parse
failure is the degenerate case `events = []` with `progError` carrying the
wrapped message. Every failure is absorbed: the partial timeline plus one
`errorStep` is resolved, never an exception. -/
def executeCode (events : List TraceEvent) (progError : Option String) :
    List ExecutionStep :=
  let r := runEvents events initState
  match r.2 with
  | some msg => r.1.timeline ++ [errorStep r.1 msg]
  | none =>
    match progError with
    | some msg => r.1.timeline ++ [errorStep r.1 msg]
    | none => r.1.timeline

/-- One textual insertion; source: `src/unnamed/part_000` lines 21-24,
interface `Patch` (`index` is an offset into the pre-instrumentation text). -/
structure Patch where
  index : Nat
  text : String
  deriving DecidableEq, Repr

/-- Source: `src/unnamed/part_000` lines 37-39, `addPatch`: push one patch
onto the list (registration order is the list order). -/
def addPatch (st : List Patch) (index : Nat) (text : String) : List Patch :=
  st ++ [{ index := index, text := text }]

/-- Insertion step of the stable descending sort: a patch moves past entries
with a strictly larger index and stops before the first entry whose index is
less than or equal to its own, so entries with equal indices keep their
registration order. -/
def insertPatchDesc (p : Patch) : List Patch → List Patch
  | [] => [p]
  | q :: qs => if p.index < q.index then q :: insertPatchDesc p qs else p :: q :: qs

/-- Source: `src/unnamed/part_000` line 172,
`patches.sort((a, b) => b.index - a.index)`: the ECMAScript-specified stable
sort by descending insertion index, realized here as a stable insertion
sort. -/
def sortPatchesDesc (ps : List Patch) : List Patch :=
  ps.foldr insertPatchDesc []

/-- Source: `src/unnamed/part_000` line 176,
`out = out.slice(0, p.index) + p.text + out.slice(p.index)`: splice the
inserted text at the given offset (like `slice`, `take`/`drop` clamp an
offset beyond the end). -/
def insertAt (txt : List Char) (i : Nat) (ins : List Char) : List Char :=
  txt.take i ++ ins ++ txt.drop i

/-- Source: `src/unnamed/part_000` lines 174-177: apply the patches in list
order, each by one insertion splice. -/
def applyPatches (ps : List Patch) (txt : List Char) : List Char :=
  ps.foldl (fun out p => insertAt out p.index p.text.toList) txt

/-- Patch-application phase of `instrumentCode`; source: `src/unnamed/part_000`
lines 170-179: sort all registered patches by descending insertion offset
(stable) and splice each into the text in that order. -/
def instrumentApply (ps : List Patch) (txt : List Char) : List Char :=
  applyPatches (sortPatchesDesc ps) txt

mutual
/-- Syntax tree over which the instrumenter walks, mirroring the acorn node
shapes `instrumentCode` dispatches on (`src/unnamed/part_000`): statements
carry their `start`/`end` offsets (`stop` here, `end` being reserved) and the
line that `acorn.getLineInfo(code, node.start).line` reports; every other
expression shape is the generic `exprNode`, which the walk traverses without
registering patches, exactly as the source does for node types it does not
handle (literals, identifiers, calls, `ThrowStatement`, ...). `func` covers
`FunctionDeclaration` (named), `FunctionExpression` and
`ArrowFunctionExpression` (`id = none`), which lines 67 and 105-116 treat
identically; an arrow with an expression body has a non-block `body`. -/
inductive JsAst where
  | program (body : JsAstList)
  | blockStmt (start stop : Nat) (body : JsAstList)
  | varDecl (start stop line : Nat) (names : List String) (inits : JsAstList)
  | exprStmt (start stop line : Nat) (child : JsAst)
  | func (start stop line : Nat) (id : Option String) (params : List String) (body : JsAst)
  | forStmt (start stop line : Nat) (init : JsAstOpt) (test : JsAstOpt) (update : JsAstOpt) (body : JsAst)
  | whileStmt (start stop line : Nat) (test : JsAst) (body : JsAst)
  | doWhileStmt (start stop line : Nat) (body : JsAst) (test : JsAst)
  | ifStmt (start stop line : Nat) (test : JsAst) (consequent : JsAst) (alternate : JsAstOpt)
  | returnArg (start stop line : Nat) (arg : JsAst)
  | returnVoid (start stop line : Nat)
  | exprNode (start stop : Nat) (children : JsAstList)
  deriving DecidableEq, Repr
/-- Child list of a node (mutual inductive for structural recursion). -/
inductive JsAstList where
  | nil
  | cons (a : JsAst) (l : JsAstList)
  deriving DecidableEq, Repr
/-- Optional child of a node (for `for`-headers and `else` branches). -/
inductive JsAstOpt where
  | noneAst
  | someAst (a : JsAst)
  deriving DecidableEq, Repr
end

/-- Start offset of a node (`node.start`). -/
def astStart : JsAst → Nat
  | .program _ => 0
  | .blockStmt s _ _ => s
  | .varDecl s _ _ _ _ => s
  | .exprStmt s _ _ _ => s
  | .func s _ _ _ _ _ => s
  | .forStmt s _ _ _ _ _ _ => s
  | .whileStmt s _ _ _ _ => s
  | .doWhileStmt s _ _ _ _ => s
  | .ifStmt s _ _ _ _ _ => s
  | .returnArg s _ _ _ => s
  | .returnVoid s _ _ => s
  | .exprNode s _ _ => s

/-- End offset of a node (`node.end`). -/
def astStop : JsAst → Nat
  | .program _ => 0
  | .blockStmt _ e _ => e
  | .varDecl _ e _ _ _ => e
  | .exprStmt _ e _ _ => e
  | .func _ e _ _ _ _ => e
  | .forStmt _ e _ _ _ _ _ => e
  | .whileStmt _ e _ _ _ => e
  | .doWhileStmt _ e _ _ _ => e
  | .ifStmt _ e _ _ _ _ => e
  | .returnArg _ e _ _ => e
  | .returnVoid _ e _ => e
  | .exprNode _ e _ => e

/-- Walk context, standing in for the `parent` argument of `walk`
(`src/unnamed/part_000` lines 55-63 and 125): `loopInit` marks the
initializer child of a loop header, which the walk skips entirely;
`ifBranch` marks the consequent/alternate child of an `IfStatement`, the
only parent shape for which the source's `needsBlock` condition
(`parent.body !== node && (parent.consequent === node ||
parent.alternate === node || parent.body === node)`) can hold. -/
inductive WalkCtx where
  | plain
  | loopInit
  | ifBranch
  deriving DecidableEq, Repr

/-- Instrumenter traversal state: the stack of scope frames (top frame at the
head here; the source keeps the top at the array's end) and the registered
patches; source: `src/unnamed/part_000` lines 35 and 42. -/
structure WalkSt where
  scopeStack : List (List String)
  patches : List Patch
  deriving DecidableEq, Repr

/-- Add a name to one frame with JS-`Set` semantics (insertion order, no
duplicates). -/
def frameAdd (f : List String) (x : String) : List String :=
  if x ∈ f then f else f ++ [x]

/-- Push a fresh scope frame (`scopeStack.push(new Set())`, line 70). -/
def pushScope (st : WalkSt) : WalkSt :=
  { st with scopeStack := [] :: st.scopeStack }

/-- Pop the top scope frame (`scopeStack.pop()`, line 166). -/
def popScope (st : WalkSt) : WalkSt :=
  { st with scopeStack := st.scopeStack.tail }

/-- Register a name in the top frame (`scopeStack[scopeStack.length - 1].add`,
lines 77 and 86). -/
def registerTop (x : String) (st : WalkSt) : WalkSt :=
  match st.scopeStack with
  | [] => st
  | f :: rest => { st with scopeStack := frameAdd f x :: rest }

/-- Register a function's own name in the enclosing frame, only when one
exists (`if(scopeStack.length > 1) scopeStack[scopeStack.length - 2].add`,
line 82). -/
def registerEnclosing (x : String) (st : WalkSt) : WalkSt :=
  match st.scopeStack with
  | f :: g :: rest => { st with scopeStack := f :: frameAdd g x :: rest }
  | _ => st

/-- Source: `src/unnamed/part_000` lines 43-47, `getCurrentScopeVars`: the
union of the names of all frames, bottom frame first, insertion order, no
duplicates. -/
def currentScopeVars (st : WalkSt) : List String :=
  st.scopeStack.reverse.foldl (fun acc f => f.foldl frameAdd acc) []

/-- Text of the patch prepended to a traced statement; source: line 121,
`__tracer.setLine(LINE); `. -/
def setLineText (line : Nat) : String :=
  "__tracer.setLine(" ++ toString line ++ "); "

/-- Snapshot entry for one visible variable; source: line 51,
`NAME: (typeof NAME !== 'undefined' ? NAME : undefined)`. -/
def varSnippet (v : String) : String :=
  v ++ ": (typeof " ++ v ++ " !== \x27undefined\x27 ? " ++ v ++ " : undefined)"

/-- Source: lines 49-53, `generateTraceCall`: the full trace-call statement
`__tracer.step(LINE, { ... });` over the currently visible variables. -/
def generateTraceCall (line : Nat) (vars : List String) : String :=
  "__tracer.step(" ++ toString line ++ ", \x7b " ++
    String.intercalate ", " (vars.map varSnippet) ++ " \x7d);"

/-- Loop-guard text; source: line 94. -/
def guardText : String :=
  " if (__tracer.checkLoop()) break; "

/-- Call-stack entry text inserted at the top of a block function body;
source: line 113. -/
def enterText (name : String) : String :=
  " __tracer.enter(\"" ++ name ++ "\"); try \x7b "

/-- Finally-exit text inserted before a block function body's closing brace;
source: line 114. -/
def finallyText : String :=
  " \x7d finally \x7b __tracer.exit(); \x7d "

/-- Loop protection; source: lines 90-99: a block body receives the guard
right after its opening brace; a single-statement body is wrapped into a
synthesized block together with the guard. -/
def loopProtect (body : JsAst) (ps : List Patch) : List Patch :=
  match body with
  | .blockStmt s _ _ => addPatch ps (s + 1) guardText
  | b => addPatch (addPatch ps (astStart b) ("\x7b" ++ guardText)) (astStop b) " \x7d"

/-- Function entry/exit instrumentation; source: lines 104-116: only a
`BlockStatement` body is wrapped (`enter` after the opening brace, the
`finally { exit }` before the closing brace); any other body shape — an
arrow function's expression body — is left untouched. -/
def funcEntry (name : String) (body : JsAst) (ps : List Patch) : List Patch :=
  match body with
  | .blockStmt s e _ => addPatch (addPatch ps (s + 1) (enterText name)) (e - 1) finallyText
  | _ => ps

/-- Statement instrumentation for `VariableDeclaration`/`ExpressionStatement`;
source: lines 118-133: prepend the set-line call; append the trace call; when
the statement is an unbraced `if` branch, wrap statement and trace call in a
synthesized block. -/
def stmtInstrument (start stop line : Nat) (isIfBranch : Bool) (st : WalkSt) : WalkSt :=
  let ps1 := addPatch st.patches start (setLineText line)
  let trace := generateTraceCall line (currentScopeVars st)
  if isIfBranch then
    { st with patches := addPatch (addPatch ps1 start "\x7b ") stop ("; " ++ trace ++ " \x7d") }
  else
    { st with patches := addPatch ps1 stop ("; " ++ trace) }

mutual
/-- The instrumenter's traversal; source: `src/unnamed/part_000` lines 55-168,
`walk`. Each case follows the source's order: loop-initializer skip, scope
push, variable collection, loop protection, function entry/exit, statement
instrumentation, return tracing, children traversal (in acorn key order),
scope pop. -/
def walk (n : JsAst) (ctx : WalkCtx) (st : WalkSt) : WalkSt :=
  if ctx = .loopInit then st
  else
    match n with
    | .program body =>
      popScope (walkList body (pushScope st))
    | .blockStmt _ _ body =>
      popScope (walkList body (pushScope st))
    | .varDecl start stop line names inits =>
      let st1 := names.foldl (fun s nm => registerTop nm s) st
      let st2 := stmtInstrument start stop line (ctx = .ifBranch) st1
      walkList inits st2
    | .exprStmt start stop line child =>
      let st1 := stmtInstrument start stop line (ctx = .ifBranch) st
      walk child .plain st1
    | .func _ _ _ id params body =>
      let st1 := pushScope st
      let st2 := match id with
        | some nm => registerEnclosing nm st1
        | none => st1
      let st3 := params.foldl (fun s p => registerTop p s) st2
      let st4 := { st3 with patches := funcEntry (id.getD "(anonymous)") body st3.patches }
      popScope (walk body .plain st4)
    | .forStmt _ _ _ init test update body =>
      let st1 := { st with patches := loopProtect body st.patches }
      let st2 := walkOpt init .loopInit st1
      let st3 := walkOpt test .plain st2
      let st4 := walkOpt update .plain st3
      walk body .plain st4
    | .whileStmt _ _ _ test body =>
      let st1 := { st with patches := loopProtect body st.patches }
      let st2 := walk test .plain st1
      walk body .plain st2
    | .doWhileStmt _ _ _ body test =>
      let st1 := { st with patches := loopProtect body st.patches }
      let st2 := walk body .plain st1
      walk test .plain st2
    | .ifStmt _ _ _ test consequent alternate =>
      let st1 := walk test .plain st
      let st2 := walk consequent .ifBranch st1
      walkOpt alternate .ifBranch st2
    | .returnArg start _ line arg =>
      let ps1 := addPatch st.patches start (setLineText line)
      let trace := generateTraceCall line (currentScopeVars st)
      let ps2 := addPatch ps1 (astStart arg) ("(" ++ trace.dropRight 1 ++ ", ")
      let ps3 := addPatch ps2 (astStop arg) ")"
      walk arg .plain { st with patches := ps3 }
    | .returnVoid start stop line =>
      let ps1 := addPatch st.patches start (setLineText line)
      let ps2 := addPatch ps1 start (generateTraceCall line (currentScopeVars st))
      let ps3 := addPatch ps2 start "\x7b "
      { st with patches := addPatch ps3 stop " \x7d" }
    | .exprNode _ _ children =>
      walkList children st
/-- Children traversal for node lists (statement lists, declarator inits,
generic expression children); every member is a plain child. -/
def walkList (ns : JsAstList) (st : WalkSt) : WalkSt :=
  match ns with
  | .nil => st
  | .cons a l => walkList l (walk a .plain st)
/-- Traversal of an optional child under a given context. -/
def walkOpt (o : JsAstOpt) (ctx : WalkCtx) (st : WalkSt) : WalkSt :=
  match o with
  | .noneAst => st
  | .someAst a => walk a ctx st
end

/-- Patch-generation phase of `instrumentCode`; source: `src/unnamed/part_000`
lines 26-170: the scope stack starts with one frame and the walk starts at
the program root with no parent. -/
def instrumentPatches (ast : JsAst) : List Patch :=
  (walk ast .plain { scopeStack := [[]], patches := [] }).patches

/-- Whole instrumentation pass on a source text whose parse tree is `ast`;
source: `src/unnamed/part_000` lines 26-179. -/
def instrumentCode (ast : JsAst) (code : List Char) : List Char :=
  instrumentApply (instrumentPatches ast) code

/-- JS `\s` whitespace class (the characters relevant to the sources). -/
def isWs (c : Char) : Bool :=
  c = ' ' || c = '\t' || c = '\n' || c = '\r'

/-- JS `\w` word-character class: alphanumeric or underscore. -/
def isWordChar (c : Char) : Bool :=
  c.isAlphanum || c = '_'

/-- JS `String.prototype.trim`: drop whitespace at both ends. -/
def trimChars (cs : List Char) : List Char :=
  ((cs.dropWhile isWs).reverse.dropWhile isWs).reverse

/-- Join character lists with a separator (for `Array.prototype.join`). -/
def joinChars (sep : List Char) : List (List Char) → List Char
  | [] => []
  | [p] => p
  | p :: q :: rest => p ++ sep ++ joinChars sep (q :: rest)

/-- Collector loop of `parseCoutArgs`; source: `src/unnamed/part_004`
lines 75-99: scan the chain left to right, track parenthesis depth, and treat
`<<` as a separator only at depth zero (so a bit-shift inside parentheses is
not mistaken for the stream operator); each part is trimmed and empty parts
are dropped. -/
def parseCoutArgsGo (cs current : List Char) (depth : Int)
    (parts : List (List Char)) : List (List Char) :=
  match cs with
  | [] =>
    let t := trimChars current
    if t = [] then parts else parts ++ [t]
  | [c] =>
    let t := trimChars (current ++ [c])
    if t = [] then parts else parts ++ [t]
  | c :: c2 :: rest =>
    let d := if c = '(' then depth + 1 else if c = ')' then depth - 1 else depth
    if d = 0 ∧ c = '<' ∧ c2 = '<' then
      let t := trimChars current
      let parts2 := if t = [] then parts else parts ++ [t]
      parseCoutArgsGo rest [] d parts2
    else
      parseCoutArgsGo (c2 :: rest) (current ++ [c]) d parts

/-- Source: `src/unnamed/part_004` lines 75-107, `parseCoutArgs`: split a
`cout`/`cerr` chain on top-level `<<`, drop `endl`/`std::endl` operands, and
join the remaining operands with `, ` as print-call arguments. -/
def parseCoutArgs (args : List Char) : List Char :=
  let parts := parseCoutArgsGo args [] 0 []
  let filtered := parts.filter
    (fun p => ¬(trimChars p = "endl".toList ∨ trimChars p = "std::endl".toList))
  joinChars ", ".toList filtered

/-- Literal-prefix matcher used by the rewrite rules (`expectStr s cs` returns
the rest of `cs` after the literal `s`). -/
def expectStr (s : List Char) (cs : List Char) : Option (List Char) :=
  match s, cs with
  | [], rest => some rest
  | _ :: _, [] => none
  | a :: s1, c :: cs1 => if a = c then expectStr s1 cs1 else none

/-- Longest prefix of word characters together with the rest (`\w+` is greedy
and `\w` excludes the characters that follow it in the patterns below, so
greedy matching without backtracking is exact). -/
def takeWord (cs : List Char) : List Char × List Char :=
  (cs.takeWhile isWordChar, cs.dropWhile isWordChar)

/-- Longest prefix free of a given character, with the rest (for the `[^>]+`
and `[^}]*` regex pieces, which likewise cannot backtrack past their
excluded character). -/
def takeNot (bad : Char) (cs : List Char) : List Char × List Char :=
  (cs.takeWhile (fun c => c ≠ bad), cs.dropWhile (fun c => c ≠ bad))

/-- Matcher for one occurrence of the single-vector declaration pattern;
source: `src/unnamed/part_004` line 223, the regex
`(?:std::)?vector\s*<[^>]+>\s+(\w+)\s*=\s*\x7b([^\x7d]*)\x7d\s*;` whose match
is replaced by `let $1 = [$2];`. Returns the declared name, the initializer
list and the rest of the text. -/
def matchVectorDecl (cs : List Char) : Option (List Char × List Char × List Char) := do
  let cs0 := (expectStr "std::".toList cs).getD cs
  let r1 ← expectStr "vector".toList cs0
  let r2 := r1.dropWhile isWs
  let r3 ← expectStr "<".toList r2
  let (inner, r4) := takeNot '>' r3
  if inner = [] then none else
  let r5 ← expectStr ">".toList r4
  if r5.head?.all (fun c => ¬isWs c) then none else
  let r6 := r5.dropWhile isWs
  let (name, r7) := takeWord r6
  if name = [] then none else
  let r8 := r7.dropWhile isWs
  let r9 ← expectStr "=".toList r8
  let r10 := r9.dropWhile isWs
  let r11 ← expectStr "\x7b".toList r10
  let (ini, r12) := takeNot '\x7d' r11
  let r13 ← expectStr "\x7d".toList r12
  let r14 := r13.dropWhile isWs
  let r15 ← expectStr ";".toList r14
  some (name, ini, r15)

/-- Global replacement loop for the vector-declaration rewrite (the fuel is
the remaining length; every successful match consumes at least the literal
`vector`, so the fuel never runs out). -/
def cppRewriteVectorInitGo : Nat → List Char → List Char
  | _, [] => []
  | 0, cs => cs
  | n + 1, c :: cs =>
    match matchVectorDecl (c :: cs) with
    | some (name, ini, rest) =>
      "let ".toList ++ name ++ " = [".toList ++ ini ++ "];".toList ++
        cppRewriteVectorInitGo n rest
    | none => c :: cppRewriteVectorInitGo n cs

/-- Phase-3 single-vector rewrite of `transpileCppToJs`; source:
`src/unnamed/part_004` line 223: `vector<int> v = {1, 2, 3};` becomes
`let v = [1, 2, 3];`. -/
def cppRewriteVectorInit (cs : List Char) : List Char :=
  cppRewriteVectorInitGo cs.length cs

/-- Matcher for one occurrence of the `cout` statement pattern; source:
`src/unnamed/part_004` lines 318-322, the regex `(?:std::)?cout\s*<<\s*(.*);`:
`.*;` is greedy and `.` does not cross a newline, so the captured arguments
run to the last semicolon on the line. Returns the captured chain and the
rest of the text. -/
def matchCoutStmt (cs : List Char) : Option (List Char × List Char) := do
  let cs0 := (expectStr "std::".toList cs).getD cs
  let r1 ← expectStr "cout".toList cs0
  let r2 := r1.dropWhile isWs
  let r3 ← expectStr "<<".toList r2
  let r4 := r3.dropWhile isWs
  let lineChars := r4.takeWhile (fun c => c ≠ '\n')
  let afterLine := r4.dropWhile (fun c => c ≠ '\n')
  let beforeSemi := (lineChars.reverse.dropWhile (fun c => c ≠ ';')).reverse
  match beforeSemi.reverse with
  | ';' :: argsRev => some (argsRev.reverse, lineChars.drop beforeSemi.length ++ afterLine)
  | _ => none

/-- Replacement text for one matched `cout` statement; source:
`src/unnamed/part_004` lines 318-322: the parsed operands become one
`console.log(...)` call, or a comment when nothing remains. -/
def coutReplacement (args : List Char) : List Char :=
  let parsed := parseCoutArgs args
  if parsed = [] then "// empty cout".toList
  else "console.log(".toList ++ parsed ++ ");".toList

/-- Global replacement loop for the `cout` rewrite. -/
def cppRewriteCoutGo : Nat → List Char → List Char
  | _, [] => []
  | 0, cs => cs
  | n + 1, c :: cs =>
    match matchCoutStmt (c :: cs) with
    | some (args, rest) => coutReplacement args ++ cppRewriteCoutGo n rest
    | none => c :: cppRewriteCoutGo n cs

/-- Phase-6 `cout` rewrite of `transpileCppToJs`; source:
`src/unnamed/part_004` lines 317-322. -/
def cppRewriteCout (cs : List Char) : List Char :=
  cppRewriteCoutGo cs.length cs

/-- Matcher for one occurrence of `.size ( )` with optional inner whitespace;
source: `src/unnamed/part_004` line 357, the regex `\.size\s*\(\s*\)` whose
match is replaced by `.length`. -/
def matchSizeCall (cs : List Char) : Option (List Char) := do
  let r1 ← expectStr ".size".toList cs
  let r2 := r1.dropWhile isWs
  let r3 ← expectStr "(".toList r2
  let r4 := r3.dropWhile isWs
  expectStr ")".toList r4

/-- Global replacement loop for the `.size()` rewrite. -/
def cppRewriteSizeGo : Nat → List Char → List Char
  | _, [] => []
  | 0, cs => cs
  | n + 1, c :: cs =>
    match matchSizeCall (c :: cs) with
    | some rest => ".length".toList ++ cppRewriteSizeGo n rest
    | none => c :: cppRewriteSizeGo n cs

/-- Phase-7 `.size()` rewrite of `transpileCppToJs`; source:
`src/unnamed/part_004` line 357. -/
def cppRewriteSizeCalls (cs : List Char) : List Char :=
  cppRewriteSizeGo cs.length cs

/-- Matcher for one occurrence of `log` followed by optional whitespace and
an opening parenthesis; source: `src/unnamed/part_004` line 479, the regex
`\blog\s*\(` whose match is replaced by `Math.log(`. Returns the rest of
the text after the consumed `(`. The `\b` word boundary is handled by the
caller, which tracks the preceding character. -/
def matchLogCall (cs : List Char) : Option (List Char) := do
  let r1 ← expectStr "log".toList cs
  let r2 := r1.dropWhile isWs
  expectStr "(".toList r2

/-- Global replacement loop for the `\blog\s*\(` rewrite. The Boolean
carries whether the previous character of the original text is a word
character: the `\b` boundary before `log` holds exactly when it is not —
including right after a `.`, so the `console.log(` calls produced by the
phase-6 `cout` rewrite are also rewritten. Scanning resumes after each
match (the consumed text ends in `(`, a non-word character). -/
def cppRewriteLogGo : Nat → Bool → List Char → List Char
  | _, _, [] => []
  | 0, _, cs => cs
  | n + 1, prevWord, c :: cs =>
    if prevWord = false then
      match matchLogCall (c :: cs) with
      | some rest => "Math.log(".toList ++ cppRewriteLogGo n false rest
      | none => c :: cppRewriteLogGo n (isWordChar c) cs
    else c :: cppRewriteLogGo n (isWordChar c) cs

/-- Phase-9 `log` math-function rewrite of `transpileCppToJs`; source:
`src/unnamed/part_004` line 479: `\blog\s*\(` becomes `Math.log(`. It runs
*after* the phase-6 I/O rewrite on the whole text. -/
def cppRewriteLog (cs : List Char) : List Char :=
  cppRewriteLogGo cs.length false cs

/-- Language dispatch of the driver; source: `src/unnamed/part_003`
lines 13-28: the C++ front-end runs for `'c++'`/`'cpp'`, the Python front-end
for `'python'`/`'py'`, and for every other selector the source text is handed
to the instrumenter unchanged. The two front-ends are parameters so that the
dispatch itself is captured independently of their bodies. -/
def codeToInstrument (transpileCpp transpilePy : String → String)
    (language userCode : String) : String :=
  if language = "c++" ∨ language = "cpp" then transpileCpp userCode
  else if language = "python" ∨ language = "py" then transpilePy userCode
  else userCode

/-- Result of running one function body in the evaluated program: normal
completion or a propagating exception. -/
inductive Outcome where
  | normal
  | thrown (msg : String)
  deriving DecidableEq, Repr

/-- Semantics of the wrapper the instrumenter installs around a block
function body (`src/unnamed/part_000` lines 104-116):
`__tracer.enter(NAME); try { BODY } finally { __tracer.exit(); }`.
The body runs on the state after the push; the `finally` clause runs
`tracer.exit` whether the body completes normally or throws, and the body's
outcome is then propagated unchanged. -/
def wrappedCall (name : String) (body : DriverState → DriverState × Outcome)
    (st : DriverState) : DriverState × Outcome :=
  let st1 := tracerEnter name st
  let r := body st1
  (tracerExit r.1, r.2)

/-- Last line recorded while the events run, as the source actually maintains
`lastLine`: both `tracer.setLine` and a successful `tracer.step` update it
(`src/unnamed/part_003` lines 52 and 59); every other call leaves it
unchanged. -/
def lastLineRecorded (evs : List TraceEvent) (l : Nat) : Nat :=
  evs.foldl
    (fun acc ev =>
      match ev with
      | .setLine x => x
      | .step x _ => x
      | _ => acc) l

/-- Last line as the specification describes it: the last value passed to
`setLine` alone, `0` when `setLine` was never called. This is the
specification-side reading, kept separate so it can be compared with the
behavior of the source. -/
def lastSetLineOnly (evs : List TraceEvent) : Nat :=
  evs.foldl
    (fun acc ev =>
      match ev with
      | .setLine x => x
      | _ => acc) 0

theorem tracerExit_stepCount (st : DriverState) :
    (tracerExit st).stepCount = st.stepCount := by
  unfold tracerExit; split <;> rfl

theorem tracerExit_timeline (st : DriverState) :
    (tracerExit st).timeline = st.timeline := by
  unfold tracerExit; split <;> rfl

theorem tracerExit_lastLine (st : DriverState) :
    (tracerExit st).lastLine = st.lastLine := by
  unfold tracerExit; split <;> rfl

theorem tracerExit_currentLogs (st : DriverState) :
    (tracerExit st).currentLogs = st.currentLogs := by
  unfold tracerExit; split <;> rfl

theorem runEvents_stepCount_le (evs : List TraceEvent) :
    ∀ st st', runEvents evs st = (st', none) →
      st.stepCount ≤ MAX_STEPS + 1 → st'.stepCount ≤ MAX_STEPS + 1 := by
  induction evs with
  | nil =>
    intro st st' h hle
    simp only [runEvents, Prod.mk.injEq] at h
    rw [← h.1]; exact hle
  | cons ev rest ih =>
    intro st st' h hle
    cases ev with
    | enter name => exact ih _ _ h hle
    | exit => exact ih _ _ h (by rw [tracerExit_stepCount]; exact hle)
    | setLine l => exact ih _ _ h hle
    | log args => exact ih _ _ h hle
    | input => exact ih _ _ h hle
    | step line vars =>
      simp only [runEvents, tracerStep] at h
      by_cases hb : st.stepCount > MAX_STEPS
      · simp [hb] at h
      · simp only [hb, if_false, ite_false] at h
        refine ih _ _ h ?_
        simp only [Nat.not_lt] at hb
        simpa using Nat.add_le_add_right hb 1

theorem runEvents_timeline_le_stepCount (evs : List TraceEvent) :
    ∀ st st', runEvents evs st = (st', none) →
      st.timeline.length ≤ st.stepCount → st'.timeline.length ≤ st'.stepCount := by
  induction evs with
  | nil =>
    intro st st' h hle
    simp only [runEvents, Prod.mk.injEq] at h
    rw [← h.1]; exact hle
  | cons ev rest ih =>
    intro st st' h hle
    cases ev with
    | enter name => exact ih _ _ h hle
    | exit =>
      exact ih _ _ h (by rw [tracerExit_stepCount, tracerExit_timeline]; exact hle)
    | setLine l => exact ih _ _ h hle
    | log args => exact ih _ _ h hle
    | input => exact ih _ _ h hle
    | step line vars =>
      simp only [runEvents, tracerStep] at h
      by_cases hb : st.stepCount > MAX_STEPS
      · simp [hb] at h
      · simp only [hb, if_false, ite_false] at h
        refine ih _ _ h ?_
        simpa using Nat.add_le_add_right hle 1

theorem runEvents_isError_false (evs : List TraceEvent) :
    ∀ st st' e, runEvents evs st = (st', e) →
      (∀ s ∈ st.timeline, s.isError = false) →
      ∀ s ∈ st'.timeline, s.isError = false := by
  induction evs with
  | nil =>
    intro st st' e h hP
    simp only [runEvents, Prod.mk.injEq] at h
    rw [← h.1]; exact hP
  | cons ev rest ih =>
    intro st st' e h hP
    cases ev with
    | enter name => exact ih _ _ _ h hP
    | exit => exact ih _ _ _ h (by rw [tracerExit_timeline]; exact hP)
    | setLine l => exact ih _ _ _ h hP
    | log args => exact ih _ _ _ h hP
    | input => exact ih _ _ _ h hP
    | step line vars =>
      simp only [runEvents, tracerStep] at h
      by_cases hb : st.stepCount > MAX_STEPS
      · simp only [hb, if_true, ite_true, Prod.mk.injEq] at h
        intro s hs
        rw [← h.1] at hs
        exact hP s hs
      · simp only [hb, if_false, ite_false] at h
        refine ih _ _ _ h ?_
        intro s hs
        simp only [List.mem_append, List.mem_singleton] at hs
        rcases hs with hs | hs
        · exact hP s hs
        · rw [hs]

theorem runEvents_lastLine (evs : List TraceEvent) :
    ∀ st st', runEvents evs st = (st', none) →
      st'.lastLine = lastLineRecorded evs st.lastLine := by
  induction evs with
  | nil =>
    intro st st' h
    simp only [runEvents, Prod.mk.injEq] at h
    rw [← h.1]; rfl
  | cons ev rest ih =>
    intro st st' h
    cases ev with
    | enter name => simpa [lastLineRecorded, tracerEnter] using ih _ _ h
    | exit =>
      have h2 := ih _ _ h
      rw [tracerExit_lastLine] at h2
      simpa [lastLineRecorded] using h2
    | setLine l => simpa [lastLineRecorded, tracerSetLine] using ih _ _ h
    | log args => simpa [lastLineRecorded, tracerLog] using ih _ _ h
    | input => simpa [lastLineRecorded, tracerInput] using ih _ _ h
    | step line vars =>
      simp only [runEvents, tracerStep] at h
      by_cases hb : st.stepCount > MAX_STEPS
      · simp [hb] at h
      · simp only [hb, if_false, ite_false] at h
        simpa [lastLineRecorded] using ih _ _ h

/-- Call-stack well-formedness carried through a run: the live stack is
non-empty with the seed frame `'main'` at the bottom, and the same holds for
the stack copy stored in every recorded step. -/
def stackOk (st : DriverState) : Prop :=
  st.stack ≠ [] ∧ st.stack.head? = some "main" ∧
    ∀ s ∈ st.timeline, s.callStack ≠ [] ∧ s.callStack.head? = some "main"

theorem stackOk_enter (name : String) (st : DriverState) (h : stackOk st) :
    stackOk (tracerEnter name st) := by
  obtain ⟨h1, h2, h3⟩ := h
  refine ⟨?_, ?_, ?_⟩
  · simp [tracerEnter]
  · cases hs : st.stack with
    | nil => exact absurd hs h1
    | cons a t => rw [hs] at h2; simpa [tracerEnter, hs] using h2
  · simpa [tracerEnter] using h3

theorem stackOk_exit (st : DriverState) (h : stackOk st) :
    stackOk (tracerExit st) := by
  obtain ⟨h1, h2, h3⟩ := h
  unfold tracerExit
  split
  · rename_i hl
    cases hs : st.stack with
    | nil => exact absurd hs h1
    | cons a t =>
      cases ht : t with
      | nil => rw [hs, ht] at hl; simp at hl
      | cons b t2 =>
        subst ht
        rw [hs] at h2
        have ha : a = "main" := by simpa using h2
        subst ha
        refine ⟨by simp, by simp, h3⟩
  · exact ⟨h1, h2, h3⟩

theorem runEvents_stackOk (evs : List TraceEvent) :
    ∀ st st' e, runEvents evs st = (st', e) → stackOk st → stackOk st' := by
  induction evs with
  | nil =>
    intro st st' e h hP
    simp only [runEvents, Prod.mk.injEq] at h
    rw [← h.1]; exact hP
  | cons ev rest ih =>
    intro st st' e h hP
    cases ev with
    | enter name => exact ih _ _ _ h (stackOk_enter name st hP)
    | exit => exact ih _ _ _ h (stackOk_exit st hP)
    | setLine l => exact ih _ _ _ h ⟨hP.1, hP.2.1, hP.2.2⟩
    | log args => exact ih _ _ _ h ⟨hP.1, hP.2.1, hP.2.2⟩
    | input => exact ih _ _ _ h ⟨hP.1, hP.2.1, hP.2.2⟩
    | step line vars =>
      simp only [runEvents, tracerStep] at h
      by_cases hb : st.stepCount > MAX_STEPS
      · simp only [hb, if_true, ite_true, Prod.mk.injEq] at h
        rw [← h.1]; exact hP
      · simp only [hb, if_false, ite_false] at h
        refine ih _ _ _ h ⟨hP.1, hP.2.1, ?_⟩
        intro s hs
        simp only [List.mem_append, List.mem_singleton] at hs
        rcases hs with hs | hs
        · exact hP.2.2 s hs
        · rw [hs]; exact ⟨hP.1, hP.2.1⟩

theorem errorStep_stackOk (st : DriverState) (msg : String) (h : stackOk st) :
    (errorStep st msg).callStack ≠ [] ∧ (errorStep st msg).callStack.head? = some "main" := by
  unfold errorStep
  cases hl : st.timeline.getLast? with
  | none => simp [hl]
  | some s =>
    have hmem : s ∈ st.timeline := List.mem_of_mem_getLast? hl
    have := h.2.2 s hmem
    simpa [hl] using this

theorem addPatch_extends (ps : List Patch) (i : Nat) (t : String) :
    ps <+: addPatch ps i t :=
  ⟨[{ index := i, text := t }], rfl⟩

theorem registerTop_patches (x : String) (st : WalkSt) :
    (registerTop x st).patches = st.patches := by
  unfold registerTop
  cases st.scopeStack <;> rfl

theorem registerEnclosing_patches (x : String) (st : WalkSt) :
    (registerEnclosing x st).patches = st.patches := by
  unfold registerEnclosing
  cases h : st.scopeStack with
  | nil => rfl
  | cons f rest => cases rest <;> rfl

theorem foldl_registerTop_patches (names : List String) :
    ∀ st : WalkSt, ((names.foldl (fun s nm => registerTop nm s) st).patches = st.patches) := by
  induction names with
  | nil => intro st; rfl
  | cons nm rest ih =>
    intro st
    simp only [List.foldl_cons]
    rw [ih (registerTop nm st), registerTop_patches]

theorem stmtInstrument_extends (a b c : Nat) (d : Bool) (st : WalkSt) :
    st.patches <+: (stmtInstrument a b c d st).patches := by
  unfold stmtInstrument
  by_cases hd : d = true
  · simp only [hd, if_true, ite_true]
    exact ((addPatch_extends _ _ _).trans (addPatch_extends _ _ _)).trans (addPatch_extends _ _ _)
  · simp only [hd, if_false, ite_false]
    exact (addPatch_extends _ _ _).trans (addPatch_extends _ _ _)

theorem funcEntry_extends (nm : String) (b : JsAst) (ps : List Patch) :
    ps <+: funcEntry nm b ps := by
  unfold funcEntry
  cases b <;> first
    | exact (addPatch_extends _ _ _).trans (addPatch_extends _ _ _)
    | exact List.prefix_refl _

theorem loopProtect_extends (b : JsAst) (ps : List Patch) :
    ps <+: loopProtect b ps := by
  unfold loopProtect
  cases b <;> first
    | exact addPatch_extends _ _ _
    | exact (addPatch_extends _ _ _).trans (addPatch_extends _ _ _)

mutual
theorem walk_patches_extend (n : JsAst) (ctx : WalkCtx) (st : WalkSt) :
    st.patches <+: (walk n ctx st).patches := by
  rw [walk.eq_def]
  by_cases hctx : ctx = WalkCtx.loopInit
  · rw [if_pos hctx]
  · rw [if_neg hctx]
    cases n with
    | program body => exact walkList_patches_extend body (pushScope st)
    | blockStmt start stop body => exact walkList_patches_extend body (pushScope st)
    | varDecl start stop line names inits =>
      have h0 : st.patches <+:
          (names.foldl (fun s nm => registerTop nm s) st).patches := by
        rw [foldl_registerTop_patches]
      refine (h0.trans (stmtInstrument_extends start stop line
        (decide (ctx = WalkCtx.ifBranch))
        (names.foldl (fun s nm => registerTop nm s) st))).trans ?_
      exact walkList_patches_extend inits _
    | exprStmt start stop line child =>
      refine (stmtInstrument_extends start stop line
        (decide (ctx = WalkCtx.ifBranch)) st).trans ?_
      exact walk_patches_extend child .plain
        (stmtInstrument start stop line (decide (ctx = WalkCtx.ifBranch)) st)
    | func start stop line id params body =>
      cases id with
      | none =>
        have h0 : st.patches <+:
            (params.foldl (fun s p => registerTop p s) (pushScope st)).patches := by
          rw [foldl_registerTop_patches]
          exact List.prefix_refl _
        refine (h0.trans (funcEntry_extends "(anonymous)" body _)).trans ?_
        exact walk_patches_extend body .plain
          ⟨(params.foldl (fun s p => registerTop p s) (pushScope st)).scopeStack,
            funcEntry "(anonymous)" body
              (params.foldl (fun s p => registerTop p s) (pushScope st)).patches⟩
      | some nm =>
        have h0 : st.patches <+:
            (params.foldl (fun s p => registerTop p s)
              (registerEnclosing nm (pushScope st))).patches := by
          rw [foldl_registerTop_patches, registerEnclosing_patches]
          exact List.prefix_refl _
        refine (h0.trans (funcEntry_extends nm body _)).trans ?_
        exact walk_patches_extend body .plain
          ⟨(params.foldl (fun s p => registerTop p s)
              (registerEnclosing nm (pushScope st))).scopeStack,
            funcEntry nm body
              (params.foldl (fun s p => registerTop p s)
                (registerEnclosing nm (pushScope st))).patches⟩
    | forStmt start stop line init test update body =>
      refine (loopProtect_extends body st.patches).trans ?_
      refine List.IsPrefix.trans
        (walkOpt_patches_extend init .loopInit ⟨st.scopeStack, loopProtect body st.patches⟩) ?_
      refine List.IsPrefix.trans
        (walkOpt_patches_extend test .plain
          (walkOpt init .loopInit ⟨st.scopeStack, loopProtect body st.patches⟩)) ?_
      refine List.IsPrefix.trans
        (walkOpt_patches_extend update .plain
          (walkOpt test .plain
            (walkOpt init .loopInit ⟨st.scopeStack, loopProtect body st.patches⟩))) ?_
      exact walk_patches_extend body .plain
        (walkOpt update .plain
          (walkOpt test .plain
            (walkOpt init .loopInit ⟨st.scopeStack, loopProtect body st.patches⟩)))
    | whileStmt start stop line test body =>
      refine (loopProtect_extends body st.patches).trans ?_
      refine List.IsPrefix.trans
        (walk_patches_extend test .plain ⟨st.scopeStack, loopProtect body st.patches⟩) ?_
      exact walk_patches_extend body .plain
        (walk test .plain ⟨st.scopeStack, loopProtect body st.patches⟩)
    | doWhileStmt start stop line body test =>
      refine (loopProtect_extends body st.patches).trans ?_
      refine List.IsPrefix.trans
        (walk_patches_extend body .plain ⟨st.scopeStack, loopProtect body st.patches⟩) ?_
      exact walk_patches_extend test .plain
        (walk body .plain ⟨st.scopeStack, loopProtect body st.patches⟩)
    | ifStmt start stop line test consequent alternate =>
      refine (walk_patches_extend test .plain st).trans ?_
      refine List.IsPrefix.trans
        (walk_patches_extend consequent .ifBranch (walk test .plain st)) ?_
      exact walkOpt_patches_extend alternate .ifBranch
        (walk consequent .ifBranch (walk test .plain st))
    | returnArg start stop line arg =>
      refine (((addPatch_extends st.patches start (setLineText line)).trans
        (addPatch_extends (addPatch st.patches start (setLineText line)) (astStart arg)
          ("(" ++ (generateTraceCall line (currentScopeVars st)).dropRight 1 ++ ", "))).trans
        (addPatch_extends
          (addPatch (addPatch st.patches start (setLineText line)) (astStart arg)
            ("(" ++ (generateTraceCall line (currentScopeVars st)).dropRight 1 ++ ", "))
          (astStop arg) ")")).trans ?_
      exact walk_patches_extend arg .plain
        ⟨st.scopeStack,
          addPatch
            (addPatch (addPatch st.patches start (setLineText line)) (astStart arg)
              ("(" ++ (generateTraceCall line (currentScopeVars st)).dropRight 1 ++ ", "))
            (astStop arg) ")"⟩
    | returnVoid start stop line =>
      exact (((addPatch_extends st.patches start (setLineText line)).trans
        (addPatch_extends (addPatch st.patches start (setLineText line)) start
          (generateTraceCall line (currentScopeVars st)))).trans
        (addPatch_extends
          (addPatch (addPatch st.patches start (setLineText line)) start
            (generateTraceCall line (currentScopeVars st)))
          start "\x7b ")).trans
        (addPatch_extends
          (addPatch
            (addPatch (addPatch st.patches start (setLineText line)) start
              (generateTraceCall line (currentScopeVars st)))
            start "\x7b ")
          stop " \x7d")
    | exprNode start stop children => exact walkList_patches_extend children st

theorem walkList_patches_extend (ns : JsAstList) (st : WalkSt) :
    st.patches <+: (walkList ns st).patches := by
  rw [walkList.eq_def]
  cases ns with
  | nil => exact List.prefix_refl _
  | cons a l =>
    exact (walk_patches_extend a .plain st).trans (walkList_patches_extend l _)

theorem walkOpt_patches_extend (o : JsAstOpt) (ctx : WalkCtx) (st : WalkSt) :
    st.patches <+: (walkOpt o ctx st).patches := by
  rw [walkOpt.eq_def]
  cases o with
  | noneAst => exact List.prefix_refl _
  | someAst a => exact walk_patches_extend a ctx st
end

/-- Descending order on patches compared by insertion index (the order the
sort in `instrumentCode` establishes). -/
def patchGE (a b : Patch) : Prop := b.index ≤ a.index

theorem insertAt_sublist (txt : List Char) (i : Nat) (ins : List Char) :
    List.Sublist txt (insertAt txt i ins) := by
  unfold insertAt
  rw [List.append_assoc]
  conv_lhs => rw [← List.take_append_drop i txt]
  exact (List.Sublist.refl (txt.take i)).append (List.sublist_append_right ins (txt.drop i))

theorem insertAt_length (txt : List Char) (i : Nat) (ins : List Char) :
    (insertAt txt i ins).length = txt.length + ins.length := by
  unfold insertAt
  simp only [List.length_append, List.length_take, List.length_drop]
  omega

theorem applyPatches_sublist (ps : List Patch) :
    ∀ txt, List.Sublist txt (applyPatches ps txt) := by
  induction ps with
  | nil => intro txt; exact List.Sublist.refl txt
  | cons p rest ih =>
    intro txt
    exact (insertAt_sublist txt p.index p.text.toList).trans (ih _)

theorem insertPatchDesc_perm (p : Patch) (l : List Patch) :
    List.Perm (insertPatchDesc p l) (p :: l) := by
  induction l with
  | nil => exact List.Perm.refl _
  | cons q qs ih =>
    unfold insertPatchDesc
    by_cases h : p.index < q.index
    · rw [if_pos h]
      exact (List.Perm.cons q ih).trans (List.Perm.swap p q qs)
    · rw [if_neg h]

theorem sortPatchesDesc_perm (ps : List Patch) : List.Perm (sortPatchesDesc ps) ps := by
  induction ps with
  | nil => exact List.Perm.refl _
  | cons p rest ih =>
    exact (insertPatchDesc_perm p (sortPatchesDesc rest)).trans (List.Perm.cons p ih)

theorem insertPatchDesc_pairwise (p : Patch) (l : List Patch)
    (h : List.Pairwise patchGE l) : List.Pairwise patchGE (insertPatchDesc p l) := by
  induction l with
  | nil => simp [insertPatchDesc, patchGE]
  | cons q qs ih =>
    unfold insertPatchDesc
    rcases List.pairwise_cons.mp h with ⟨hq, hqs⟩
    by_cases hpq : p.index < q.index
    · rw [if_pos hpq]
      refine List.Pairwise.cons ?_ (ih hqs)
      intro x hx
      rcases List.mem_cons.mp ((insertPatchDesc_perm p qs).mem_iff.mp hx) with hx | hx
      · rw [hx]; exact Nat.le_of_lt hpq
      · exact hq x hx
    · rw [if_neg hpq]
      refine List.Pairwise.cons ?_ h
      intro x hx
      rcases List.mem_cons.mp hx with hx | hx
      · rw [hx]; exact Nat.le_of_not_lt hpq
      · exact Nat.le_trans (hq x hx) (Nat.le_of_not_lt hpq)

theorem sortPatchesDesc_sorted (ps : List Patch) :
    List.Pairwise patchGE (sortPatchesDesc ps) := by
  induction ps with
  | nil => exact List.Pairwise.nil
  | cons p rest ih => exact insertPatchDesc_pairwise p (sortPatchesDesc rest) ih

theorem filter_insertPatchDesc (p : Patch) (l : List Patch) (i : Nat)
    (hl : List.Pairwise patchGE l) :
    (insertPatchDesc p l).filter (fun q => q.index == i) =
      if p.index == i then p :: l.filter (fun q => q.index == i)
      else l.filter (fun q => q.index == i) := by
  induction l with
  | nil => by_cases hp : p.index = i <;> simp [insertPatchDesc, hp]
  | cons q qs ih =>
    rcases List.pairwise_cons.mp hl with ⟨hq, hqs⟩
    unfold insertPatchDesc
    by_cases hpq : p.index < q.index
    · rw [if_pos hpq]
      rw [List.filter_cons, ih hqs, List.filter_cons]
      by_cases hpi : p.index = i
      · have hqi : ¬(q.index = i) := by omega
        simp [hpi, hqi]
      · by_cases hqi : q.index = i
        · simp [hpi, hqi]
        · simp [hpi, hqi]
    · rw [if_neg hpq]
      rw [List.filter_cons]

theorem sortPatchesDesc_stable (ps : List Patch) (i : Nat) :
    (sortPatchesDesc ps).filter (fun q => q.index == i) =
      ps.filter (fun q => q.index == i) := by
  induction ps with
  | nil => rfl
  | cons p rest ih =>
    have h := filter_insertPatchDesc p (sortPatchesDesc rest) i (sortPatchesDesc_sorted rest)
    by_cases hpi : p.index = i
    · simp only [sortPatchesDesc, List.foldr_cons] at *
      rw [h, if_pos (by simpa using hpi), ih, List.filter_cons, if_pos (by simpa using hpi)]
    · simp only [sortPatchesDesc, List.foldr_cons] at *
      rw [h, if_neg (by simpa using hpi), ih, List.filter_cons, if_neg (by simpa using hpi)]

theorem insertAt_take (txt : List Char) (j : Nat) (ins : List Char) (i : Nat)
    (hij : i ≤ j) (hlen : i ≤ txt.length) :
    (insertAt txt j ins).take i = txt.take i := by
  unfold insertAt
  rw [List.append_assoc] at *
  rw [List.take_append_of_le_length (by simp; omega), List.take_take,
    Nat.min_eq_left hij]

theorem applyPatches_take (ps : List Patch) :
    ∀ txt i, (∀ p ∈ ps, i ≤ p.index) → i ≤ txt.length →
      (applyPatches ps txt).take i = txt.take i := by
  induction ps with
  | nil => intro txt i _ _; rfl
  | cons p rest ih =>
    intro txt i hidx hlen
    have hp : i ≤ p.index := hidx p (List.mem_cons_self p rest)
    have h1 : (applyPatches rest (insertAt txt p.index p.text.toList)).take i =
        (insertAt txt p.index p.text.toList).take i := by
      refine ih _ i (fun q hq => hidx q (List.mem_cons_of_mem p hq)) ?_
      rw [insertAt_length]; omega
    calc (applyPatches (p :: rest) txt).take i
        = (applyPatches rest (insertAt txt p.index p.text.toList)).take i := rfl
      _ = (insertAt txt p.index p.text.toList).take i := h1
      _ = txt.take i := insertAt_take txt p.index p.text.toList i hp hlen

/-- Syntax tree of the source `while(true){}` (offsets: `while(true)` at 0-10,
`\x7b` at 11, `\x7d` at 12, end 13; the test literal `true` spans 6-10). -/
def astWhileTrue : JsAst :=
  .program (.cons (.whileStmt 0 13 1 (.exprNode 6 10 .nil) (.blockStmt 11 13 .nil)) .nil)

/-- Execution of the instrumented loop `while(true)\x7b if
(__tracer.checkLoop()) break; \x7d` (the exact output of the instrumenter on
`while(true)\x7b\x7d`): each iteration evaluates the injected guard and exits
the loop when `tracer.checkLoop` is true; the body contains no other
statement, so the state is otherwise untouched. `none` means the fuel ran out
with the loop still running; the loop terminates only if some iteration count
makes the guard fire. -/
def whileTrueEmptyRun (fuel : Nat) (st : DriverState) : Option DriverState :=
  match fuel with
  | 0 => none
  | n + 1 => if tracerCheckLoop st then some st else whileTrueEmptyRun n st

theorem whileTrueEmptyRun_none (fuel : Nat) :
    ∀ st : DriverState, tracerCheckLoop st = false → whileTrueEmptyRun fuel st = none := by
  induction fuel with
  | zero => intro st _; rfl
  | succ n ih =>
    intro st h
    unfold whileTrueEmptyRun
    rw [h]
    exact ih st h

theorem runEvents_step_success (line : Nat) (vars : List (String × JsValue))
    (rest : List TraceEvent) (st : DriverState) (hb : ¬(st.stepCount > MAX_STEPS)) :
    runEvents (TraceEvent.step line vars :: rest) st =
      runEvents rest
        { st with
            stepCount := st.stepCount + 1,
            currentLine := line,
            lastLine := line,
            timeline := st.timeline ++
              [{ line := line, vars := vars.map (fun p => (p.1, sanitizeValue p.2)),
                 callStack := st.stack, consoleOutput := st.currentLogs }] } := by
  simp only [runEvents, tracerStep, hb, if_false, ite_false]

theorem runEvents_replicate_step (n : Nat) :
    ∀ st : DriverState, st.stepCount + n ≤ MAX_STEPS + 1 →
      (runEvents (List.replicate n (TraceEvent.step 1 [])) st).2 = none ∧
      (runEvents (List.replicate n (TraceEvent.step 1 [])) st).1.timeline.length =
        st.timeline.length + n := by
  induction n with
  | zero => intro st _; exact ⟨rfl, rfl⟩
  | succ n ih =>
    intro st h
    have hb : ¬(st.stepCount > MAX_STEPS) := by omega
    rw [List.replicate_succ, runEvents_step_success 1 [] _ st hb]
    simp only [List.map_nil]
    obtain ⟨ha, hlen⟩ := ih
      { st with
          stepCount := st.stepCount + 1,
          currentLine := 1,
          lastLine := 1,
          timeline := st.timeline ++
            [{ line := 1, vars := [], callStack := st.stack, consoleOutput := st.currentLogs }] }
      (by simp; omega)
    refine ⟨ha, ?_⟩
    rw [hlen]
    simp
    omega

/-- Events of the program `function g(){ return 1; }` (line 1), `g();`
(line 2), `throw new Error("boom");` (line 3 — a `ThrowStatement`, which the
instrumenter does not touch): the call emits `setLine 2`, then inside `g`
`enter`, `setLine 1`, the return-expression trace `step 1`, the
finally-`exit`, then the statement trace `step 2`; the uninstrumented `throw`
then escapes. The last `setLine` value is 1, but the driver reports line 2. -/
def throwAfterCallEvents : List TraceEvent :=
  [.setLine 2, .enter "g", .setLine 1, .step 1 [], .exit, .step 2 []]

/-- C1, counterexample: at the trace of the program above with the escaping
error `boom`, the terminal error step's `line` is 2 — the line of the last
successful `step` — not 1, the last value recorded by `setLine`, because
`tracer.step` also assigns `lastLine` (`src/unnamed/part_003` line 59). -/
theorem executeCode_error_line_not_last_setLine :
    ((executeCode throwAfterCallEvents (some "boom")).getLast?.map (fun s => s.line)) =
      some 2
    ∧ lastSetLineOnly throwAfterCallEvents = 1 :=
  ⟨rfl, rfl⟩

/-- C1 (amended): `executeCode` is a total function into timelines — it never
throws or rejects — and on any failure (a step-budget error thrown during the
run, or an exception escaping the evaluated program, which also covers
translation and parse failures as the degenerate empty-trace case) the result
is exactly the partial timeline with one extra final step whose `isError` is
true, whose `errorMessage` is the failure's message, whose `variables` and
`callStack` are copied from the last successful step when one exists
(otherwise the empty mapping and the seed `['main']`), and whose `line` is
the driver's `lastLine` — the last value recorded by `setLine` *or by a
successful `step`* (0 if neither ran), not by `setLine` alone. -/
theorem executeCode_failure_appends_error_step
    (events : List TraceEvent) (progError : Option String) (msg : String)
    (hfail : (runEvents events initState).2 = some msg ∨
      ((runEvents events initState).2 = none ∧ progError = some msg)) :
    executeCode events progError =
      (runEvents events initState).1.timeline ++
        [errorStep (runEvents events initState).1 msg]
    ∧ (errorStep (runEvents events initState).1 msg).isError = true
    ∧ (errorStep (runEvents events initState).1 msg).errorMessage = some msg
    ∧ (errorStep (runEvents events initState).1 msg).line =
        (runEvents events initState).1.lastLine
    ∧ (errorStep (runEvents events initState).1 msg).vars =
        (((runEvents events initState).1.timeline.getLast?).map (fun s => s.vars)).getD []
    ∧ (errorStep (runEvents events initState).1 msg).callStack =
        (((runEvents events initState).1.timeline.getLast?).map
          (fun s => s.callStack)).getD ["main"]
    ∧ ((runEvents events initState).2 = none →
        (runEvents events initState).1.lastLine = lastLineRecorded events 0) := by
  refine ⟨?_, rfl, rfl, rfl, rfl, rfl, ?_⟩
  · rcases hfail with h | ⟨h1, h2⟩
    · simp only [executeCode]
      rw [h]
    · simp only [executeCode]
      rw [h1, h2]
  · intro h0
    have heq : runEvents events initState =
        ((runEvents events initState).1, none) := by
      rw [← h0]
    exact runEvents_lastLine events initState _ heq

theorem executeCode_failure_appends_error_step_witness :
    executeCode [TraceEvent.setLine 1] (some "boom") =
      (runEvents [TraceEvent.setLine 1] initState).1.timeline ++
        [errorStep (runEvents [TraceEvent.setLine 1] initState).1 "boom"] :=
  (executeCode_failure_appends_error_step [TraceEvent.setLine 1] (some "boom") "boom"
    (Or.inr ⟨rfl, rfl⟩)).1

/-- C2 (code bug): the instrumenter turns `while(true)\x7b\x7d` into
`while(true)\x7b if (__tracer.checkLoop()) break; \x7d` and nothing else — no
`setLine`, no `step` — so the step counter that `checkLoop` compares against
the budget is never incremented, the guard can never fire, and the
instrumented loop runs forever (the promise never settles) instead of
producing a budget-error step near 2000 steps. -/
theorem whileTrue_guard_never_fires :
    instrumentCode astWhileTrue "while(true)\x7b\x7d".toList =
      "while(true)\x7b if (__tracer.checkLoop()) break; \x7d".toList
    ∧ instrumentPatches astWhileTrue = [{ index := 12, text := guardText }]
    ∧ ∀ fuel : Nat, whileTrueEmptyRun fuel initState = none := by
  refine ⟨rfl, rfl, ?_⟩
  intro fuel
  exact whileTrueEmptyRun_none fuel initState rfl

/-- C3, counterexample: a program with no traced statement (for example the
empty source) terminates normally with an *empty* timeline, and a
straight-line program performing 2001 traced statements terminates normally
with 2001 steps — the post-increment check `stepCount++ > MAX_STEPS` lets
2001 calls through, so neither the claimed non-emptiness nor the claimed
2000-step bound holds. -/
theorem executeCode_empty_and_2001_steps :
    executeCode [] none = []
    ∧ (executeCode (List.replicate 2001 (TraceEvent.step 1 [])) none).length = 2001 := by
  constructor
  · rfl
  · obtain ⟨ha, hlen⟩ := runEvents_replicate_step 2001 initState (by decide)
    simp only [executeCode]
    rw [ha, hlen]
    rfl

/-- C3 (amended): for every program that terminates normally without error —
every run of its trace that neither trips the budget nor ends in an escaping
exception — the returned Timeline is exactly the recorded steps (possibly
empty when nothing was traced), every step of it has `isError` false, and it
contains at most 2001 steps (the post-incremented counter admits
`MAX_STEPS + 1` successful `step` calls). -/
theorem executeCode_normal_run
    (events : List TraceEvent)
    (h : (runEvents events initState).2 = none) :
    executeCode events none = (runEvents events initState).1.timeline
    ∧ (∀ s ∈ executeCode events none, s.isError = false)
    ∧ (executeCode events none).length ≤ MAX_STEPS + 1 := by
  have heq : runEvents events initState = ((runEvents events initState).1, none) := by
    rw [← h]
  have hshape : executeCode events none = (runEvents events initState).1.timeline := by
    simp only [executeCode]
    rw [h]
  refine ⟨hshape, ?_, ?_⟩
  · intro s hs
    rw [hshape] at hs
    exact runEvents_isError_false events initState _ none heq
      (by intro s hs; simp [initState] at hs) s hs
  · rw [hshape]
    have h1 := runEvents_timeline_le_stepCount events initState _ heq (by decide)
    have h2 := runEvents_stepCount_le events initState _ heq (by decide)
    omega

theorem executeCode_normal_run_witness :
    executeCode [TraceEvent.step 1 []] none =
      (runEvents [TraceEvent.step 1 []] initState).1.timeline
    ∧ (executeCode [TraceEvent.step 1 []] none).length ≤ MAX_STEPS + 1 := by
  have h := executeCode_normal_run [TraceEvent.step 1 []] rfl
  exact ⟨h.1, h.2.2⟩

/-- C4: every `ExecutionStep` of every Timeline `executeCode` returns has a
non-empty `callStack` whose bottom (index 0) is the seed frame `'main'` —
`tracer.exit` never pops the seed frame, and the terminal error step copies
either the last step's stack or the literal `['main']` — and the stack moves
by exactly one frame per transition: `enter` grows it by one, `exit` shrinks
it by one except at the seed frame, where it leaves the stack unchanged. -/
theorem callStack_invariant :
    (∀ (events : List TraceEvent) (progError : Option String),
      ∀ s ∈ executeCode events progError,
        s.callStack ≠ [] ∧ s.callStack.head? = some "main")
    ∧ (∀ (st : DriverState) (name : String),
        (tracerEnter name st).stack.length = st.stack.length + 1)
    ∧ (∀ st : DriverState, 1 < st.stack.length →
        (tracerExit st).stack.length + 1 = st.stack.length)
    ∧ (∀ st : DriverState, st.stack.length ≤ 1 → (tracerExit st).stack = st.stack) := by
  refine ⟨?_, ?_, ?_, ?_⟩
  · intro events progError s hs
    have heq : runEvents events initState =
        ((runEvents events initState).1, (runEvents events initState).2) := rfl
    have hinit : stackOk initState := by
      refine ⟨by simp [initState], by simp [initState], ?_⟩
      intro s hs
      simp [initState] at hs
    have hQ : stackOk (runEvents events initState).1 :=
      runEvents_stackOk events initState _ _ heq hinit
    simp only [executeCode] at hs
    rcases h2 : (runEvents events initState).2 with _ | msg
    · rw [h2] at hs
      cases progError with
      | none => exact hQ.2.2 s hs
      | some m =>
        rcases List.mem_append.mp hs with hs | hs
        · exact hQ.2.2 s hs
        · rw [List.mem_singleton.mp hs]
          exact errorStep_stackOk _ m hQ
    · rw [h2] at hs
      rcases List.mem_append.mp hs with hs | hs
      · exact hQ.2.2 s hs
      · rw [List.mem_singleton.mp hs]
        exact errorStep_stackOk _ msg hQ
  · intro st name
    simp [tracerEnter]
  · intro st h
    unfold tracerExit
    rw [if_pos h]
    simp only [List.length_dropLast]
    omega
  · intro st h
    unfold tracerExit
    rw [if_neg (by omega)]

theorem callStack_invariant_witness :
    (({ line := 1, vars := [], callStack := ["main"], consoleOutput := [] } :
        ExecutionStep).callStack ≠ []
      ∧ ({ line := 1, vars := [], callStack := ["main"], consoleOutput := [] } :
        ExecutionStep).callStack.head? = some "main")
    ∧ (tracerExit initState).stack = initState.stack := by
  constructor
  · refine callStack_invariant.1 [TraceEvent.step 1 []] none _ ?_
    rw [show executeCode [TraceEvent.step 1 []] none =
      [{ line := 1, vars := [], callStack := ["main"], consoleOutput := [] }] from rfl]
    exact List.mem_singleton.mpr rfl
  · exact callStack_invariant.2.2.2 initState (by decide)

/-- Syntax tree of the source `let f = x => x * 2;` (the `VariableDeclaration`
spans 0-19, the arrow function 8-18 with the expression body `x * 2` at
13-18). -/
def astArrowFn : JsAst :=
  .program (.cons
    (.varDecl 0 19 1 ["f"]
      (.cons (.func 8 18 1 none ["x"] (.exprNode 13 18 .nil)) .nil)) .nil)

/-- C5, counterexample: the arrow function `x => x * 2` — an instrumented
function whose body is an expression, not a block — receives no call-stack
instrumentation at all: the complete patch list of the program consists of
the two statement patches of the declaration, and no patch text contains a
`__tracer.enter` call. -/
theorem arrow_expression_body_not_wrapped :
    instrumentPatches astArrowFn =
      [{ index := 0, text := setLineText 1 },
       { index := 19, text := "; " ++ generateTraceCall 1 ["f"] }]
    ∧ ∀ p ∈ instrumentPatches astArrowFn,
        ¬ List.IsInfix "__tracer.enter".toList p.text.toList := by
  refine ⟨rfl, ?_⟩
  set_option maxRecDepth 4096 in decide

/-- C5 (amended): for every instrumented function whose body is a block
statement, the walk registers — whatever the surrounding context and state —
both the entry patch ` __tracer.enter("NAME"); try \x7b ` right after the
body's opening brace (`NAME` being the function's name or `(anonymous)`) and
the ` \x7d finally \x7b __tracer.exit(); \x7d ` patch before its closing
brace; and the semantics of that wrapper restores the call-stack across both
exit paths: whenever the wrapped body leaves the stack as it found it, the
whole call leaves the caller's stack unchanged, also when the body's outcome
is a propagating exception. Functions with expression bodies are not wrapped
(see the counterexample). -/
theorem funcBlockBody_enter_finally :
    (∀ (start stop line bStart bStop : Nat) (id : Option String)
       (params : List String) (inner : JsAstList) (ctx : WalkCtx) (st : WalkSt),
      ctx ≠ WalkCtx.loopInit →
        ({ index := bStart + 1, text := enterText (id.getD "(anonymous)") } : Patch) ∈
          (walk (.func start stop line id params (.blockStmt bStart bStop inner))
            ctx st).patches
        ∧ ({ index := bStop - 1, text := finallyText } : Patch) ∈
          (walk (.func start stop line id params (.blockStmt bStart bStop inner))
            ctx st).patches)
    ∧ (∀ (name : String) (body : DriverState → DriverState × Outcome)
        (st : DriverState) (out : Outcome),
        st.stack ≠ [] →
        (body (tracerEnter name st)).1.stack = (tracerEnter name st).stack →
        (wrappedCall name body st).1.stack = st.stack ∧
          ((body (tracerEnter name st)).2 = out → (wrappedCall name body st).2 = out)) := by
  constructor
  · intro start stop line bStart bStop id params inner ctx st hctx
    rw [walk.eq_def, if_neg hctx]
    have hsub := (walk_patches_extend (.blockStmt bStart bStop inner) .plain
      ⟨(params.foldl (fun s p => registerTop p s)
          (match id with
            | some nm => registerEnclosing nm (pushScope st)
            | none => pushScope st)).scopeStack,
        funcEntry (id.getD "(anonymous)") (.blockStmt bStart bStop inner)
          (params.foldl (fun s p => registerTop p s)
            (match id with
              | some nm => registerEnclosing nm (pushScope st)
              | none => pushScope st)).patches⟩).subset
    constructor
    · refine hsub ?_
      simp [funcEntry, addPatch]
    · refine hsub ?_
      simp [funcEntry, addPatch]
  · intro name body st out hne hbal
    constructor
    · show (tracerExit (body (tracerEnter name st)).1).stack = st.stack
      unfold tracerExit
      rw [hbal]
      have hlen : (tracerEnter name st).stack.length > 1 := by
        have := List.length_pos.mpr hne
        simp [tracerEnter]
        omega
      rw [if_pos hlen]
      simp [tracerEnter]
    · intro h
      exact h

theorem funcBlockBody_enter_finally_witness :
    ({ index := 13, text := enterText "g" } : Patch) ∈
      (walk (.func 0 25 1 (some "g") [] (.blockStmt 12 25 .nil)) .plain
        ⟨[[]], []⟩).patches
    ∧ (wrappedCall "g" (fun s => (s, Outcome.thrown "err")) initState).1.stack =
        initState.stack := by
  constructor
  · exact (funcBlockBody_enter_finally.1 0 25 1 12 25 (some "g") [] .nil .plain
      ⟨[[]], []⟩ (by decide)).1
  · exact ((funcBlockBody_enter_finally.2 "g" (fun s => (s, Outcome.thrown "err"))
      initState (Outcome.thrown "err") (by decide) rfl).1)

/-- C6, counterexample: a `console.error` call of the evaluated program is
recorded with kind `'log'` — the informational kind — not with kind
`'error'`, because the wrapped code binds `console.error` (and
`console.warn`) to `__tracer.log`. -/
theorem console_error_recorded_as_info :
    ((consoleError [.str "x"] initState).currentLogs.map (fun c => c.type)) =
      [LogType.log]
    ∧ LogType.log ≠ LogType.error := by
  exact ⟨rfl, by decide⟩

/-- C6 (amended): every `console.log`, `console.error` and `console.warn`
call executed by an instrumented program appends exactly one ConsoleLog to
the accumulating log, and in all three cases its kind is the informational
`'log'` — the error and warn kinds are never produced by the console
mapping, which binds all three methods to `__tracer.log`. -/
theorem console_all_kinds_are_info (args : List JsValue) (st : DriverState) :
    (consoleLog args st).currentLogs =
      st.currentLogs ++ [{ type := .log, message := logMessage args }]
    ∧ (consoleError args st).currentLogs =
      st.currentLogs ++ [{ type := .log, message := logMessage args }]
    ∧ (consoleWarn args st).currentLogs =
      st.currentLogs ++ [{ type := .log, message := logMessage args }] :=
  ⟨rfl, rfl, rfl⟩

/-- Syntax tree of the two-line block form the Python front-end produces for
`for i in range(3): print(i)` after transpilation, namely
`for (let i = 0; i < 3; i++) \x7b` / `    console.log(i)` / `\x7d`
(offsets: init declaration 5-14 declaring `i`, test 16-21, update 23-26, body
block 28-50, body statement 34-48 on line 2). -/
def astPyRangeLoop : JsAst :=
  .program (.cons
    (.forStmt 0 50 1
      (.someAst (.varDecl 5 14 1 ["i"] (.cons (.exprNode 13 14 .nil) .nil)))
      (.someAst (.exprNode 16 21 .nil))
      (.someAst (.exprNode 23 26 .nil))
      (.blockStmt 28 50
        (.cons (.exprStmt 34 48 2 (.exprNode 34 48 .nil)) .nil))) .nil)

/-- Tracer calls the instrumented loop body performs across its three
iterations: `setLine 2`, the `console.log(i)` output, and the
empty-snapshot `step 2` trace, for `i` 0, 1, 2. -/
def pyRangeLoopEvents : List TraceEvent :=
  [.setLine 2, .log [.num 0], .step 2 [],
   .setLine 2, .log [.num 1], .step 2 [],
   .setLine 2, .log [.num 2], .step 2 []]

/-- C7 (code bug): the walk skips the loop initializer *before* collecting
declared names, so `i` is never registered in any scope frame: the trace call
injected for the loop body carries the empty snapshot `\x7b  \x7d`. Running
the resulting trace, the console output is `["0","1","2"]` as the scenario
expects, but all three recorded steps have an empty `variables` mapping —
no step records `i` as 0, 1 or 2. (The one-line form of the source fails even
earlier: the front-end's `for ... in range` rewrite requires a `\x7b` that
only the indentation phase inserts, so the inline form reaches the parser
unrewritten.) -/
theorem pythonRangeLoop_i_not_recorded :
    instrumentPatches astPyRangeLoop =
      [{ index := 29, text := guardText },
       { index := 34, text := setLineText 2 },
       { index := 48, text := "; " ++ generateTraceCall 2 [] }]
    ∧ ((executeCode pyRangeLoopEvents none).map (fun s => s.vars)) = [[], [], []]
    ∧ ((executeCode pyRangeLoopEvents none).getLast?.map
        (fun s => s.consoleOutput.map (fun c => c.message))) = some ["0", "1", "2"] :=
  ⟨rfl, rfl, rfl⟩

/-- Scenario C source text,
`vector<int> v = \x7b1,2,3\x7d; cout << v.size() << endl;`. -/
def cppScenario : List Char :=
  "vector<int> v = \x7b1,2,3\x7d; cout << v.size() << endl;".toList

/-- The value of `v` after the transpiled declaration runs. -/
def vArr : JsValue :=
  .arr (.cons (.num 1) (.cons (.num 2) (.cons (.num 3) .nil)))

/-- Tracer calls of the program the transpiler actually produces for the
scenario, `let v = [1,2,3]; console.Math.log(v.length);`, once instrumented:
the first statement records its snapshot; the second statement's set-line
call runs, and then evaluating `console.Math.log` throws — the sandbox's
`console` object (`src/unnamed/part_003` lines 103-109) has only `log`,
`error` and `warn`, so `console.Math` is undefined — before that statement's
trace call is reached. The escaping TypeError's message is engine-specific,
hence the quantification over `msg` in the theorem below. -/
def cppFailEvents : List TraceEvent :=
  [.setLine 1, .step 1 [("v", vArr)], .setLine 1]

/-- C8 (code bug): the phase-3 vector rewrite does turn the declaration into
the 3-element array literal `let v = [1,2,3];`, and the phase-6 `cout`
rewrite (via `parseCoutArgs`, dropping `endl`) with the phase-7 `.size()`
rewrite produce `console.log(v.length);` — but the phase-9 math-function
rewrite then turns that very call into `console.Math.log(v.length);`, because
`\b` holds between `.` and `log`. Executing the resulting program throws at
the second statement (`console.Math` is undefined in the sandbox), so the
run ends in one terminal error step whose console output is the single
error entry — not `["3"]` as the scenario claims. -/
theorem cppScenario_console_log_clobbered :
    cppRewriteVectorInit cppScenario =
      "let v = [1,2,3]; cout << v.size() << endl;".toList
    ∧ cppRewriteLog (cppRewriteSizeCalls (cppRewriteCout (cppRewriteVectorInit cppScenario))) =
        "let v = [1,2,3]; console.Math.log(v.length);".toList
    ∧ parseCoutArgs "v.size() << endl".toList = "v.size()".toList
    ∧ (∀ msg : String,
        ((executeCode cppFailEvents (some msg)).getLast?.map (fun s => s.isError)) =
          some true
        ∧ ((executeCode cppFailEvents (some msg)).getLast?.map
            (fun s => s.consoleOutput.map (fun c => c.message))) =
          some ["Runtime Error: " ++ msg ++ " "]) := by
  refine ⟨rfl, rfl, rfl, ?_⟩
  intro msg
  exact ⟨rfl, rfl⟩

/-- C9: the patch machinery of `instrumentCode` only ever inserts — for every
patch list, sorted or not, the original text is a sublist (in-order
subsequence) of the spliced result; the sort is a stable descending sort: its
output is pairwise non-increasing on `index`, is a permutation of its input,
and patches sharing an index keep their registration order (the filter at any
index is unchanged); and applying patches whose indices are all at least `i`
never touches the first `i` characters — inserting at a later offset never
invalidates the offset recorded for an earlier patch. -/
theorem patch_mechanics :
    (∀ (ps : List Patch) (txt : List Char),
      List.Sublist txt (instrumentApply ps txt))
    ∧ (∀ ps : List Patch, List.Pairwise patchGE (sortPatchesDesc ps))
    ∧ (∀ ps : List Patch, List.Perm (sortPatchesDesc ps) ps)
    ∧ (∀ (ps : List Patch) (i : Nat),
        (sortPatchesDesc ps).filter (fun q => q.index == i) =
          ps.filter (fun q => q.index == i))
    ∧ (∀ (ps : List Patch) (txt : List Char) (i : Nat),
        (∀ p ∈ ps, i ≤ p.index) → i ≤ txt.length →
          (applyPatches ps txt).take i = txt.take i) :=
  ⟨fun ps txt => applyPatches_sublist (sortPatchesDesc ps) txt,
   sortPatchesDesc_sorted,
   sortPatchesDesc_perm,
   sortPatchesDesc_stable,
   fun ps txt i h1 h2 => applyPatches_take ps txt i h1 h2⟩

theorem patch_mechanics_witness :
    List.Sublist "ab".toList
      (instrumentApply [{ index := 1, text := "X" }, { index := 0, text := "Y" }] "ab".toList)
    ∧ (applyPatches [{ index := 1, text := "X" }] "ab".toList).take 1 =
        "ab".toList.take 1 :=
  ⟨patch_mechanics.1 [{ index := 1, text := "X" }, { index := 0, text := "Y" }] "ab".toList,
   patch_mechanics.2.2.2.2 [{ index := 1, text := "X" }] "ab".toList 1
     (by decide) (by decide)⟩

/-- C10: for every language selector other than `'c++'`, `'cpp'`, `'python'`
and `'py'` — arbitrary unknown strings included — the dispatch hands the
source text to the instrumenter unchanged, whatever the two transpilation
front-ends would compute. -/
theorem unknownLanguage_passthrough
    (transpileCpp transpilePy : String → String) (language userCode : String)
    (h1 : language ≠ "c++") (h2 : language ≠ "cpp")
    (h3 : language ≠ "python") (h4 : language ≠ "py") :
    codeToInstrument transpileCpp transpilePy language userCode = userCode := by
  unfold codeToInstrument
  rw [if_neg (by simp [h1, h2]), if_neg (by simp [h3, h4])]

theorem unknownLanguage_passthrough_witness :
    codeToInstrument (fun s => s ++ "!") (fun s => s ++ "?") "ruby" "x = 1" = "x = 1" :=
  unknownLanguage_passthrough (fun s => s ++ "!") (fun s => s ++ "?") "ruby" "x = 1"
    (by decide) (by decide) (by decide) (by decide)
